import Mathlib

/-!
Verification of `eval/3d_iou_loc.py` (LangSplat evaluation script).

The script is shallowly embedded: tensors become lists of rationals,
boolean-mask indexing becomes `maskFilter`, file-saving side effects become
an explicit `Effect` value, and the external libraries (the CLIP relevance
model `get_max_across`, `cv2.filter2D`, the colormap) are parameters of the
embedded functions, exactly where the script calls out to them.
-/

set_option linter.unusedVariables false

namespace LangSplat

/-- Boolean-mask indexing `xs[mask]` of numpy / torch: keep the entries of
`xs` whose corresponding entry of `mask` is `true`. -/
def maskFilter (mask : List Bool) (xs : List α) : List α :=
  ((mask.zip xs).filter (fun p => p.1)).map (fun p => p.2)

theorem maskFilter_nil (mask : List Bool) : maskFilter mask ([] : List α) = [] := by
  cases mask <;> rfl

theorem maskFilter_cons (b : Bool) (mask : List Bool) (x : α) (xs : List α) :
    maskFilter (b :: mask) (x :: xs) =
      (if b then [x] else []) ++ maskFilter mask xs := by
  cases b <;> simp [maskFilter]

/-- Filtering by the pointwise-threshold mask of `rel` keeps exactly the
entries of `xs` sitting at an index where `rel` exceeds the threshold. -/
theorem maskFilter_map_pred (p : ℚ → Bool) (rel : List ℚ) (xs : List α) :
    maskFilter (rel.map p) xs =
      ((rel.zip xs).filter (fun q => p q.1)).map (fun q => q.2) := by
  induction rel generalizing xs with
  | nil => cases xs <;> rfl
  | cons r rs ih =>
    cases xs with
    | nil => rfl
    | cons x xs' =>
      rw [List.map_cons, maskFilter_cons]
      cases h : p r <;> simp [List.filter_cons, h, ih]

/-- The number of survivors of boolean-mask indexing is the number of `true`
entries of the mask, when the mask and the data have the same length. -/
theorem maskFilter_length (mask : List Bool) (xs : List α)
    (h : mask.length = xs.length) :
    (maskFilter mask xs).length = mask.count true := by
  induction mask generalizing xs with
  | nil => simp [maskFilter]
  | cons b bs ih =>
    cases xs with
    | nil => simp at h
    | cons x xs' =>
      have h' : bs.length = xs'.length := by simpa using h
      rw [maskFilter_cons]
      cases b <;> simp [ih xs' h', List.count_cons]

/-- The per-Gaussian attribute tensors of `scene.gaussian_model.GaussianModel`
touched by `activate_stream`; each is a list of rows (first dimension =
number of Gaussians). -/
structure GaussianModel where
  features_dc : List (List ℚ)
  features_rest : List (List ℚ)
  language_feature : List (List ℚ)
  opacity : List (List ℚ)
  rotation : List (List ℚ)
  scaling : List (List ℚ)
  xyz : List (List ℚ)
  max_radii2D : List ℚ
deriving DecidableEq, Inhabited, Repr

/-- `copy.deepcopy` on a value model: an independent value copy. -/
def deepcopy (g : GaussianModel) : GaussianModel := g

/-- Lines 130-137 of `activate_stream`: index every attribute tensor with the
same boolean mask. -/
def applyMask (mask : List Bool) (g : GaussianModel) : GaussianModel where
  features_dc := maskFilter mask g.features_dc
  features_rest := maskFilter mask g.features_rest
  language_feature := maskFilter mask g.language_feature
  opacity := maskFilter mask g.opacity
  rotation := maskFilter mask g.rotation
  scaling := maskFilter mask g.scaling
  xyz := maskFilter mask g.xyz
  max_radii2D := maskFilter mask g.max_radii2D

/-- `valid_map[i][k] > 0.65` (line 127): the 3D-exclusion boolean mask over
the squeezed relevance vector. -/
def relMask (rel : List ℚ) : List Bool :=
  rel.map (fun v => decide ((65 : ℚ) / 100 < v))

/-- `.squeeze()` on an (N,1) tensor: concatenate the singleton rows. -/
def squeezeCol (m : List (List ℚ)) : List ℚ := m.flatten

/-- `valid_map[i][k] > 0.58` (line 148): the 2D boolean mask tensor. -/
def maskTensor (m : List (List ℚ)) : List (List Bool) :=
  m.map (fun row => row.map (fun v => decide ((58 : ℚ) / 100 < v)))

/-- `.float()` on a boolean tensor: `True` becomes `1.0`, `False` becomes `0.0`. -/
def maskFloat (m : List (List Bool)) : List (List ℚ) :=
  m.map (fun row => row.map (fun b => if b then (1 : ℚ) else 0))

/-- Two-dimensional indexing `m[r][c]`, as an `Option`. -/
def lookup2 (m : List (List ℚ)) (r c : Nat) : Option ℚ :=
  (m.get? r).bind (fun row => row.get? c)

/-- One file-saving side effect of `activate_stream` / `evaluate`, recorded as
data: the masked point cloud + masked model of the 3D-exclusion branch, the
binary mask image of the 2D branch, the full colored point cloud of the last
branch, or an IoU number logged by the evaluation. -/
inductive Effect where
  | excludePly (prompt head : Nat) (saved : GaussianModel)
      (points : List (List ℚ)) (colors : List (List ℚ))
  | maskImage (prompt head : Nat) (img : List (List ℚ))
  | fullPly (prompt head : Nat) (points : List (List ℚ)) (colors : List (List ℚ))
  | iouReport (frame prompt : Nat) (iou : ℚ)
deriving DecidableEq, Repr

/-- Discriminator used to collect IoU logs. -/
def Effect.isIouReport : Effect → Bool
  | .iouReport _ _ _ => true
  | _ => false

/-- The branch body of `activate_stream` for one `(head i, prompt k)` pair
(lines 123-158).  `cmap` stands for the external `colormap_saving`
(`rgb_language`), `vmik` is `valid_map[i][k]`.  When `gaussians_list` is
supplied the 3D-exclusion branch runs; otherwise `generate_mask` selects
between the binary-mask image and the full colored point cloud.  `thresh`
is the (unused) keyword parameter of the Python function. -/
def streamEffect (cmap : List (List ℚ) → List (List ℚ))
    (gaussiansList : Option (List GaussianModel)) (generateMask : Bool)
    (pointXyz : List (List ℚ)) (vmik : List (List ℚ)) (k i : Nat)
    (thresh : ℚ) : Effect :=
  match gaussiansList with
  | some gl =>
      let mask := relMask (squeezeCol vmik)
      let gaussiansTemp := applyMask mask (deepcopy (gl.getD i default))
      Effect.excludePly k i gaussiansTemp (maskFilter mask pointXyz)
        (maskFilter mask (cmap vmik))
  | none =>
      if generateMask then
        Effect.maskImage k i (maskFloat (maskTensor vmik))
      else
        Effect.fullPly k i pointXyz (cmap vmik)

/-- `activate_stream` (lines 94-158): iterate the branch body over every
prompt `k` and head `i` of `valid_map` (shape head x prompt x h x w) and
collect the saved artifacts.  The default of `thresh` in the source is 0.5. -/
def activate_stream (cmap : List (List ℚ) → List (List ℚ))
    (gaussiansList : Option (List GaussianModel)) (generateMask : Bool)
    (pointXyz : List (List ℚ)) (validMap : List (List (List (List ℚ))))
    (thresh : ℚ) : List Effect :=
  let nHead := validMap.length
  let nPrompt := (validMap.headD []).length
  ((List.range nPrompt).map (fun k =>
    (List.range nHead).map (fun i =>
      streamEffect cmap gaussiansList generateMask pointXyz
        ((validMap.getD i []).getD k []) k i thresh))).flatten

/-- The source default of `activate_stream`'s `thresh` parameter. -/
def threshDefault : ℚ := 5 / 10

/-- The source default of the `--mask_thresh` command-line option. -/
def maskThreshDefault : ℚ := 4 / 10

/-! ### A heap view of the 3D-exclusion branch (for the frame property)

Python mutates objects through references.  To state that the original
models of `gaussians_list` are untouched, the models live in a store of
values addressed by indices; `copy.deepcopy` allocates a fresh cell holding
a value copy, and the in-place attribute assignments of lines 130-137 hit
only that fresh cell. -/

/-- The heap of `GaussianModel` objects reachable during `activate_stream`. -/
structure Store where
  models : List GaussianModel
deriving DecidableEq, Repr

/-- `copy.deepcopy(gaussians)` (line 129): allocate a fresh cell with a value
copy of the model at `r` and return its address. -/
def deepcopyAlloc (s : Store) (r : Nat) : Store × Nat :=
  (⟨s.models ++ [deepcopy (s.models.getD r default)]⟩, s.models.length)

/-- Overwrite the model stored at address `r`. -/
def storeSet (s : Store) (r : Nat) (g : GaussianModel) : Store :=
  ⟨s.models.set r g⟩

/-- Lines 129-137 of `activate_stream` as a store transformer: deep-copy the
model at address `r`, mask every attribute of the copy in place, and return
the new store together with the address of the masked copy. -/
def excludeBranchStore (s : Store) (r : Nat) (rel : List ℚ) : Store × Nat :=
  let p := deepcopyAlloc s r
  let gaussiansTemp := p.1.models.getD p.2 default
  let masked := applyMask (relMask rel) gaussiansTemp
  (storeSet p.1 p.2 masked, p.2)

/-- The whole 3D-exclusion run of `activate_stream` over the store: one
`excludeBranchStore` call for every `(head, prompt)` pair, reading
`gaussians_list[i]` (address `i`) and the squeezed relevance vector of the
pair. -/
def activateStreamStore (s : Store) (pairs : List (Nat × Nat))
    (rel : Nat → Nat → List ℚ) : Store :=
  pairs.foldl (fun st p => (excludeBranchStore st p.1 (rel p.1 p.2)).1) s

/-! ### `evaluate`: feature decoding and the evaluation loop -/

/-- Recursion core of `chunk`; the fuel dominates the list length, so the
recursion is structural and the function reduces definitionally. -/
def chunkFuel (n : Nat) : Nat → List α → List (List α)
  | _, [] => []
  | 0, _ :: _ => []
  | fuel + 1, x :: rest =>
    if n = 0 then []
    else (x :: rest).take n :: chunkFuel n fuel ((x :: rest).drop n)

/-- Split a list into consecutive chunks of `n` elements (`torch.view` with
an inferred leading dimension, seen list-wise). -/
def chunk (n : Nat) (xs : List α) : List (List α) :=
  chunkFuel n xs.length xs

theorem chunkFuel_eq (n : Nat) : ∀ (fuel1 fuel2 : Nat) (xs : List α),
    xs.length ≤ fuel1 → xs.length ≤ fuel2 →
    chunkFuel n fuel1 xs = chunkFuel n fuel2 xs := by
  intro fuel1
  induction fuel1 using Nat.strong_induction_on with
  | _ fuel1 ih =>
    intro fuel2 xs h1 h2
    cases xs with
    | nil => cases fuel1 <;> cases fuel2 <;> rfl
    | cons x rest =>
      cases fuel1 with
      | zero => simp at h1
      | succ f1 =>
        cases fuel2 with
        | zero => simp at h2
        | succ f2 =>
          by_cases hn : n = 0
          · simp [chunkFuel, hn]
          · simp only [chunkFuel, if_neg hn]
            simp only [List.length_cons] at h1 h2
            refine congrArg _ (ih f1 (Nat.lt_succ_self f1) f2 _ ?_ ?_) <;>
              simp only [List.length_drop, List.length_cons] <;> omega

theorem chunk_nil (n : Nat) : chunk n ([] : List α) = [] := rfl

theorem chunk_cons (n : Nat) (x : α) (rest : List α) (hn : n ≠ 0) :
    chunk n (x :: rest) =
      (x :: rest).take n :: chunk n ((x :: rest).drop n) := by
  show chunkFuel n (rest.length + 1) (x :: rest) = _
  rw [chunkFuel, if_neg hn]
  refine congrArg _ (chunkFuel_eq n rest.length _ _ ?_ (Nat.le_refl _))
  simp only [List.length_drop, List.length_cons]
  omega

/-- `sem_feat.flatten(0, 2)` on a (lvl, h, w, c) tensor: merge the first
three dimensions, keeping the feature rows. -/
def flatten02 (t : List (List (List (List ℚ)))) : List (List ℚ) :=
  (t.flatten).flatten

/-- Lines 291-293 of `evaluate`: flatten the first three dimensions, apply
the autoencoder decoder `dec` row-wise (`model.decode`), and `view` the rows
back under the leading `(lvl, h, w)` shape with the last dimension inferred. -/
def restored_feat (dec : List ℚ → List ℚ) (h w : Nat)
    (t : List (List (List (List ℚ)))) : List (List (List (List ℚ))) :=
  chunk h (chunk w ((flatten02 t).map dec))

/-- The shape predicate of a 4-dimensional nested list. -/
def Shape4 (a b c d : Nat) (t : List (List (List (List ℚ)))) : Prop :=
  t.length = a ∧ ∀ x ∈ t, x.length = b ∧ ∀ y ∈ x, y.length = c ∧
    ∀ z ∈ y, z.length = d

instance (a b c d : Nat) (t : List (List (List (List ℚ)))) :
    Decidable (Shape4 a b c d t) := by
  unfold Shape4
  exact inferInstance

/-- The evaluation loop of `evaluate` (lines 286-307): for every frame `j`
take the slice `compressed_sem_feats[:, j]`, decode it with the autoencoder,
turn it into a relevance map with the external `clip_model.get_max_across`
(`gma`), and run `activate_stream` on the result, forwarding `mask_thresh`
as `thresh`.  All saved artifacts are collected; nothing else is produced
or logged by the function body (the IoU / localization code is commented
out). -/
def evaluate_effects (cmap : List (List ℚ) → List (List ℚ))
    (gma : List (List (List (List ℚ))) → List (List (List (List ℚ))))
    (dec : List ℚ → List ℚ)
    (gaussiansList : Option (List GaussianModel)) (generateMask : Bool)
    (pointXyz : List (List ℚ))
    (feats : List (List (List (List (List ℚ)))))
    (maskThresh : ℚ) : List Effect :=
  let nFrames := (feats.headD []).length
  ((List.range nFrames).map (fun j =>
    let semFeat := feats.map (fun lv => lv.getD j [])
    let hDim := (semFeat.headD []).length
    let wDim := ((semFeat.headD []).headD []).length
    let restored := restored_feat dec hDim wDim semFeat
    activate_stream cmap gaussiansList generateMask pointXyz (gma restored)
      maskThresh)).flatten

/-- The IoU numbers reported by a run. -/
def iouReports (es : List Effect) : List Effect :=
  es.filter Effect.isIouReport

/-! ### `lerf_localization`: smoothing, per-head arg-max selection,
candidate coordinates, bounding-box containment scoring -/

/-- Lines 214-215: `np.ones((30, 30)) / 30 ** 2`, the uniform averaging
kernel. -/
def lerfKernel : List (List ℚ) :=
  List.replicate 30 (List.replicate 30 ((1 : ℚ) / 900))

/-- `.max()` of numpy over a vector (maximum of the entries; numpy raises on
an empty array, here the empty case defaults to `0` and is always guarded by
a nonemptiness hypothesis). -/
def listMax : List ℚ → ℚ
  | [] => 0
  | [v] => v
  | v :: w :: rest => max v (listMax (w :: rest))

/-- `avg_filtered[..., i].max()` (line 222): maximum over all entries of a
2-dimensional map. -/
def matMax (m : List (List ℚ)) : ℚ := listMax m.flatten

/-- `np.argmax` (line 227): index of the first occurrence of the maximum. -/
def argmaxIdx : List ℚ → Nat
  | [] => 0
  | [_] => 0
  | v :: w :: rest =>
    if v < listMax (w :: rest) then argmaxIdx (w :: rest) + 1 else 0

/-- The column indices of a row holding value `s`, in increasing order. -/
def colsEq (s : ℚ) : List ℚ → List Nat
  | [] => []
  | v :: rest =>
    (if v = s then [0] else []) ++ (colsEq s rest).map (fun c => c + 1)

/-- Lines 223-225: `np.nonzero(avg_filtered[..., i] == score)`, transposed to
coordinate pairs and reversed to `(x, y)` order with `[..., ::-1]`; row-major
enumeration of the pixels whose value equals `s`. -/
def maxCoords : List (List ℚ) → ℚ → List (Nat × Nat)
  | [], _ => []
  | row :: rest, s =>
    (colsEq s row).map (fun c => (c, 0)) ++
      (maxCoords rest s).map (fun p => (p.1, p.2 + 1))

/-- Line 217: per-head smoothing of the relevance maps with `cv2.filter2D`
and the uniform kernel; `filt` stands for the external `cv2.filter2D`, which
filters each channel (head) independently with the same kernel. -/
def lerfSmoothed (filt : List (List ℚ) → List (List ℚ) → List (List ℚ))
    (maps : List (List (List ℚ))) : List (List (List ℚ)) :=
  maps.map (filt lerfKernel)

/-- Lines 219-224: `score_lvl[i] = avg_filtered[..., i].max()`. -/
def lerfScores (filt : List (List ℚ) → List (List ℚ) → List (List ℚ))
    (maps : List (List (List ℚ))) : List ℚ :=
  (lerfSmoothed filt maps).map matMax

/-- Line 227: `selec_head = np.argmax(score_lvl)`. -/
def lerfSelect (filt : List (List ℚ) → List (List ℚ) → List (List ℚ))
    (maps : List (List (List ℚ))) : Nat :=
  argmaxIdx (lerfScores filt maps)

/-- Line 228: `coord_final = coord_lvl[selec_head]`, the `(x, y)` pixels of
the selected head's smoothed map attaining its maximum. -/
def lerfCoords (filt : List (List ℚ) → List (List ℚ) → List (List ℚ))
    (maps : List (List (List ℚ))) : List (Nat × Nat) :=
  maxCoords ((lerfSmoothed filt maps).getD (lerfSelect filt maps) [])
    ((lerfScores filt maps).getD (lerfSelect filt maps) 0)

/-- Lines 232-237: corner normalization by min/max and the containment test
of one candidate coordinate in one ground-truth box `[x1, y1, x2, y2]`. -/
def boxContains (box : List ℚ) (c : Nat × Nat) : Bool :=
  match box with
  | [x1, y1, x2, y2] =>
    decide (min x1 x2 ≤ (c.1 : ℚ) ∧ (c.1 : ℚ) ≤ max x1 x2 ∧
      min y1 y2 ≤ (c.2 : ℚ) ∧ (c.2 : ℚ) ≤ max y1 y2)
  | _ => false

/-- Lines 230-242: the per-label accuracy increment.  Boxes are scanned in
order; at the first box containing some candidate coordinate the counter
gains 1 and both loops break (`flag`). -/
def labelHit (coords : List (Nat × Nat)) : List (List ℚ) → Nat
  | [] => 0
  | b :: rest =>
    if coords.any (boxContains b) then 1 else labelHit coords rest

/-- `acc_num` accumulated by `lerf_localization` over the labels of
`img_ann`; each label carries its ground-truth boxes and the candidate
coordinates computed for its prompt. -/
def lerf_acc_num (anns : List (List (List ℚ) × List (Nat × Nat))) : Nat :=
  anns.foldl (fun acc p => acc + labelHit p.2 p.1) 0

/-! ### `eval_gt_lerfdata`: ground-truth annotation collection -/

/-- A binary segmentation mask (rows of pixels). -/
def Mask := List (List Bool)
deriving DecidableEq, Inhabited

/-- Modelled from the spec: `stack_mask` of `utils_eval` (not under `src/`)
merges the accumulated mask of a label with the mask of a further occurrence
into their stacked union (pointwise or). -/
def stack_mask (m1 m2 : Mask) : Mask :=
  List.zipWith (fun r1 r2 => List.zipWith (fun a b => a || b) r1 r2) m1 m2

/-- One entry of a labelme `objects` list: a category label, a flat
`x1 y1 x2 y2` bounding box, and the polygon of the occurrence. -/
structure GtObject where
  category : String
  bbox : List ℚ
  segmentation : List (ℚ × ℚ)
deriving DecidableEq, Inhabited, Repr

/-- The `info` header of a labelme file. -/
structure FrameInfo where
  height : Nat
  width : Nat
  name : String
deriving DecidableEq, Inhabited, Repr

/-- The parsed content of one `frame_*.json` file. -/
structure FrameData where
  info : FrameInfo
  objects : List GtObject
deriving DecidableEq, Inhabited, Repr

/-- The per-label annotation: accumulated bounding-box rows (one per
occurrence) and the accumulated mask. -/
structure LabelAnn where
  bboxes : List (List ℚ)
  mask : Mask
deriving DecidableEq, Inhabited

/-- A Python dict as an insertion-ordered association list; assignment
replaces in place. -/
def upsertA (k : String) (v : α) : List (String × α) → List (String × α)
  | [] => [(k, v)]
  | (k', v') :: rest =>
    if k' = k then (k, v) :: rest else (k', v') :: upsertA k v rest

/-- Dict lookup. -/
def lookupA (k : String) : List (String × α) → Option α
  | [] => none
  | (k', v') :: rest => if k' = k then some v' else lookupA k rest

/-- Lines 73-83: fold one `objects` entry into `img_ann`.  On the first
occurrence of a label its box becomes the `bboxes` row and its polygon mask
the `mask`; on a repeated label the box row is appended
(`np.concatenate(..., axis=0)`) and the mask is stacked
(`stack_mask`).  `p2m` stands for `polygon_to_mask` of `utils_eval`. -/
def addObject (p2m : Nat → Nat → List (ℚ × ℚ) → Mask) (hgt wid : Nat)
    (ann : List (String × LabelAnn)) (o : GtObject) : List (String × LabelAnn) :=
  let m := p2m hgt wid o.segmentation
  match lookupA o.category ann with
  | some la =>
      upsertA o.category ⟨la.bboxes ++ [o.bbox], stack_mask la.mask m⟩ ann
  | none => upsertA o.category ⟨[o.bbox], m⟩ ann

/-- The `img_ann` built for one frame: the fold of `addObject` over the
frame's `objects`, starting from the empty dict. -/
def build_img_ann (p2m : Nat → Nat → List (ℚ × ℚ) → Mask) (hgt wid : Nat)
    (objects : List GtObject) : List (String × LabelAnn) :=
  objects.foldl (addObject p2m hgt wid) []

/-- Python `str.split` with a one-character separator. -/
def splitOnChar (sep : Char) : List Char → List (List Char)
  | [] => [[]]
  | c :: rest =>
    let r := splitOnChar sep rest
    if c = sep then [] :: r else (c :: r.headD []) :: r.tail

/-- The prefix of a character list up to (not including) the first
occurrence of `sep`: Python `s.split(sep)[0]`. -/
def upToSeq (sep : List Char) : List Char → List Char
  | [] => []
  | c :: rest => if sep.isPrefixOf (c :: rest) then [] else c :: upToSeq sep rest

/-- One decimal digit of Python `int()`. -/
def digitVal (c : Char) : Option Nat :=
  if c.isDigit then some (c.toNat - 48) else none

def parseNatAux : List Char → Nat → Option Nat
  | [], acc => some acc
  | c :: rest, acc =>
    match digitVal c with
    | none => none
    | some d => parseNatAux rest (acc * 10 + d)

/-- Python `int()` on a trimmed decimal string: digits with an optional
leading minus sign; `none` where `int()` raises. -/
def parseInt : List Char → Option Int
  | [] => none
  | '-' :: rest =>
    if rest = [] then none else (parseNatAux rest 0).map (fun n => -(n : Int))
  | cs => (parseNatAux cs 0).map (fun n => (n : Int))

/-- Line 72: `int(gt_data['info']['name'].split('_')[-1].split('.jpg')[0])`,
as an `Option` (`int()` raises on an unparsable field). -/
def parseFrameNum (name : String) : Option Int :=
  parseInt (upToSeq ['.', 'j', 'p', 'g']
    ((splitOnChar '_' name.data).getLastD []))

/-- The dict key `f'{idx}'` with `idx` the parsed frame number minus one. -/
def frameKey (n : Int) : String := toString (n - 1)

/-- The loop of `eval_gt_lerfdata` (lines 66-89): process the sorted
`frame_*.json` files in order, threading the accumulated `gt_ann` dict and
the `(h, w)` pair of the most recently read file.  `(h, w)` starts unbound
(`none`); returning with it still unbound, or failing to parse a frame
number, raises. -/
def evalGtLoop (p2m : Nat → Nat → List (ℚ × ℚ) → Mask) :
    List FrameData → List (String × List (String × LabelAnn)) →
    Option (Nat × Nat) →
    Option (List (String × List (String × LabelAnn)) × (Nat × Nat))
  | [], _, none => none
  | [], acc, some hw => some (acc, hw)
  | f :: rest, acc, _ =>
    match parseFrameNum f.info.name with
    | none => none
    | some n =>
        evalGtLoop p2m rest
          (upsertA (frameKey n)
            (build_img_ann p2m f.info.height f.info.width f.objects) acc)
          (some (f.info.height, f.info.width))

/-- `eval_gt_lerfdata` (lines 50-91), over the parsed frame files: the
`gt_ann` dict and the `(h, w)` of the last file, or `none` where Python
raises. -/
def eval_gt_lerfdata (p2m : Nat → Nat → List (ℚ × ℚ) → Mask)
    (frames : List FrameData) :
    Option (List (String × List (String × LabelAnn)) × (Nat × Nat)) :=
  evalGtLoop p2m frames [] none

/-! ### Claim theorems -/

/-- Discriminator of the 3D-exclusion artifact. -/
def Effect.isExcludePly : Effect → Bool
  | .excludePly _ _ _ _ _ => true
  | _ => false

/-- C7: `activate_stream` takes exactly one of three branches for every
(head, prompt) pair.  With a gaussians list the 3D-exclusion branch runs,
whatever `generate_mask` says (the effect equals the one computed with
`generate_mask` forced on, and it is an `excludePly`); with no list and
`generate_mask` set, the binary mask image is written; with neither, the
full unmasked colored point cloud holding all of `point_xyz` is written. -/
theorem activate_stream_branch_trichotomy
    (cmap : List (List ℚ) → List (List ℚ)) (gl : List GaussianModel)
    (gm : Bool) (pxyz vmik : List (List ℚ)) (k i : Nat) (t : ℚ) :
    (streamEffect cmap (some gl) gm pxyz vmik k i t =
        streamEffect cmap (some gl) true pxyz vmik k i t ∧
      (streamEffect cmap (some gl) gm pxyz vmik k i t).isExcludePly = true) ∧
    streamEffect cmap none true pxyz vmik k i t =
      Effect.maskImage k i (maskFloat (maskTensor vmik)) ∧
    streamEffect cmap none false pxyz vmik k i t =
      Effect.fullPly k i pxyz (cmap vmik) := by
  refine ⟨⟨rfl, rfl⟩, rfl, rfl⟩

/-- C6: the `thresh` parameter of `activate_stream` (and hence the
`--mask_thresh` value forwarded to it) has no effect: for any two values of
`thresh`, with all other inputs equal, `activate_stream` produces identical
outputs.  The active thresholds are the hard-coded 0.65 and 0.58. -/
theorem activate_stream_thresh_irrelevant
    (cmap : List (List ℚ) → List (List ℚ))
    (gaussiansList : Option (List GaussianModel)) (generateMask : Bool)
    (pointXyz : List (List ℚ)) (validMap : List (List (List (List ℚ))))
    (t1 t2 : ℚ) :
    activate_stream cmap gaussiansList generateMask pointXyz validMap t1 =
      activate_stream cmap gaussiansList generateMask pointXyz validMap t2 :=
  rfl

theorem lookup2_maskFloat_maskTensor (m : List (List ℚ)) (r c : Nat) :
    lookup2 (maskFloat (maskTensor m)) r c =
      (lookup2 m r c).map
        (fun v => if (58 : ℚ) / 100 < v then (1 : ℚ) else 0) := by
  simp only [lookup2, maskFloat, maskTensor, List.map_map, List.get?_map]
  cases m.get? r with
  | none => rfl
  | some row =>
    simp only [Option.map_some', Option.some_bind, Function.comp, List.map_map,
      List.get?_map]
    cases row.get? c with
    | none => rfl
    | some v =>
      by_cases h : (58 : ℚ) / 100 < v <;> simp [h]

/-- C2: in 2D mask mode (no gaussians list, `generate_mask` set) the saved
mask image is binary: the pixel at `(r, c)` is `1.0` exactly when
`valid_map[i][k]` at that pixel exceeds 0.58, and `0.0` otherwise. -/
theorem mask_branch_binary_threshold
    (cmap : List (List ℚ) → List (List ℚ)) (pxyz vmik : List (List ℚ))
    (k i : Nat) (t : ℚ) (r c : Nat) (v w : ℚ)
    (hv : lookup2 (maskFloat (maskTensor vmik)) r c = some v)
    (hw : lookup2 vmik r c = some w) :
    streamEffect cmap none true pxyz vmik k i t =
      Effect.maskImage k i (maskFloat (maskTensor vmik)) ∧
    (v = 1 ∨ v = 0) ∧ (v = 1 ↔ (58 : ℚ) / 100 < w) := by
  rw [lookup2_maskFloat_maskTensor, hw] at hv
  refine ⟨rfl, ?_, ?_⟩
  · by_cases h : (58 : ℚ) / 100 < w <;> simp [h] at hv <;> simp [hv.symm]
  · by_cases h : (58 : ℚ) / 100 < w <;> simp [h] at hv <;> simp [hv.symm, h]

/-- Witness for C2 at the single-pixel relevance map `[[1]]`. -/
theorem mask_branch_binary_threshold_witness :
    streamEffect id none true [] [[(1 : ℚ)]] 0 0 ((5 : ℚ) / 10) =
      Effect.maskImage 0 0 (maskFloat (maskTensor [[(1 : ℚ)]])) ∧
    ((1 : ℚ) = 1 ∨ (1 : ℚ) = 0) ∧
    ((1 : ℚ) = 1 ↔ (58 : ℚ) / 100 < (1 : ℚ)) :=
  mask_branch_binary_threshold id [] [[(1 : ℚ)]] 0 0 ((5 : ℚ) / 10) 0 0 1
    (1 : ℚ) (by norm_num [lookup2, maskFloat, maskTensor])
    (by norm_num [lookup2])

theorem excludeBranchStore_models (s : Store) (r : Nat) (rel : List ℚ) :
    (excludeBranchStore s r rel).1.models =
      (s.models ++ [deepcopy (s.models.getD r default)]).set s.models.length
        (applyMask (relMask rel)
          ((s.models ++ [deepcopy (s.models.getD r default)]).getD
            s.models.length default)) :=
  rfl

theorem excludeBranchStore_preserves (s : Store) (r : Nat) (rel : List ℚ)
    (j : Nat) (hj : j < s.models.length) :
    (excludeBranchStore s r rel).1.models.get? j = s.models.get? j ∧
    s.models.length < (excludeBranchStore s r rel).1.models.length := by
  constructor
  · rw [excludeBranchStore_models,
      List.get?_set_ne _ _ (Nat.ne_of_gt hj),
      List.get?_append hj]
  · rw [excludeBranchStore_models]
    simp

/-- C9: the 3D-exclusion run of `activate_stream` masks only deep copies:
after any sequence of (head, prompt) branch executions over the store, every
model cell that existed before the call holds exactly the value it held
before (so each original model of `gaussians_list`, and in particular the
first dimension of each of its attribute tensors, is unchanged). -/
theorem exclusion_preserves_originals (s : Store)
    (pairs : List (Nat × Nat)) (rel : Nat → Nat → List ℚ) (j : Nat)
    (hj : j < s.models.length) :
    (activateStreamStore s pairs rel).models.get? j = s.models.get? j := by
  induction pairs generalizing s with
  | nil => rfl
  | cons p rest ih =>
    have h1 := excludeBranchStore_preserves s p.1 (rel p.1 p.2) j hj
    calc (activateStreamStore s (p :: rest) rel).models.get? j
        = (activateStreamStore (excludeBranchStore s p.1 (rel p.1 p.2)).1
            rest rel).models.get? j := rfl
      _ = (excludeBranchStore s p.1 (rel p.1 p.2)).1.models.get? j :=
            ih _ (Nat.lt_trans hj h1.2)
      _ = s.models.get? j := h1.1

/-- Witness for C9: a two-model store, one branch execution on model 0, the
cell of model 1 (and of model 0) is untouched. -/
theorem exclusion_preserves_originals_witness :
    (activateStreamStore ⟨[default, default]⟩ [(0, 0)]
      (fun _ _ => [(7 : ℚ) / 10])).models.get? 1 =
      (Store.mk [default, default]).models.get? 1 :=
  exclusion_preserves_originals ⟨[default, default]⟩ [(0, 0)]
    (fun _ _ => [(7 : ℚ) / 10]) 1 (by decide)

theorem flatten_length_uniform (l : List (List α)) (b : Nat)
    (h : ∀ x ∈ l, x.length = b) : l.flatten.length = l.length * b := by
  induction l with
  | nil => simp
  | cons x xs ih =>
    have hx : x.length = b := h x (List.mem_cons_self x xs)
    have hxs : ∀ y ∈ xs, y.length = b := fun y hy => h y (List.mem_cons_of_mem x hy)
    simp [List.flatten_cons, hx, ih hxs, Nat.succ_mul, Nat.add_comm]

theorem chunk_length (n m : Nat) (hn : 0 < n) :
    ∀ (xs : List α), xs.length = m * n → (chunk n xs).length = m := by
  induction m with
  | zero =>
    intro xs h
    rw [Nat.zero_mul] at h
    rw [List.length_eq_zero.mp h, chunk_nil]
    rfl
  | succ m ih =>
    intro xs h
    cases xs with
    | nil => rw [Nat.succ_mul] at h; simp at h; omega
    | cons x rest =>
      rw [chunk_cons n x rest (Nat.pos_iff_ne_zero.mp hn), List.length_cons,
        ih _ (by rw [Nat.succ_mul] at h
                 simp only [List.length_drop, List.length_cons] at h ⊢
                 omega)]

theorem chunk_mem_length (n m : Nat) (hn : 0 < n) :
    ∀ (xs : List α), xs.length = m * n → ∀ c ∈ chunk n xs, c.length = n := by
  induction m with
  | zero =>
    intro xs h c hc
    rw [Nat.zero_mul] at h
    rw [List.length_eq_zero.mp h, chunk_nil] at hc
    exact absurd hc (List.not_mem_nil c)
  | succ m ih =>
    intro xs h c hc
    cases xs with
    | nil => rw [Nat.succ_mul] at h; simp at h; omega
    | cons x rest =>
      rw [chunk_cons n x rest (Nat.pos_iff_ne_zero.mp hn)] at hc
      rcases List.mem_cons.mp hc with hc | hc
      · subst hc
        rw [List.length_take]
        rw [Nat.succ_mul] at h
        simp only [List.length_cons] at h ⊢
        omega
      · exact ih _ (by rw [Nat.succ_mul] at h
                       simp only [List.length_drop, List.length_cons] at h ⊢
                       omega) c hc

theorem chunk_mem_subset (n m : Nat) (hn : 0 < n) :
    ∀ (xs : List α), xs.length = m * n →
      ∀ c ∈ chunk n xs, ∀ v ∈ c, v ∈ xs := by
  induction m with
  | zero =>
    intro xs h c hc
    rw [Nat.zero_mul] at h
    rw [List.length_eq_zero.mp h, chunk_nil] at hc
    exact absurd hc (List.not_mem_nil c)
  | succ m ih =>
    intro xs h c hc v hv
    cases xs with
    | nil => rw [Nat.succ_mul] at h; simp at h; omega
    | cons x rest =>
      rw [chunk_cons n x rest (Nat.pos_iff_ne_zero.mp hn)] at hc
      rcases List.mem_cons.mp hc with hc | hc
      · exact List.take_subset n _ (hc ▸ hv)
      · exact List.drop_subset n _
          (ih _ (by rw [Nat.succ_mul] at h
                    simp only [List.length_drop, List.length_cons] at h ⊢
                    omega) c hc v hv)

theorem flatten02_length (lvl h w c : Nat)
    (t : List (List (List (List ℚ)))) (ht : Shape4 lvl h w c t) :
    (flatten02 t).length = (lvl * h) * w := by
  obtain ⟨h1, h2⟩ := ht
  have ha : t.flatten.length = lvl * h := by
    rw [flatten_length_uniform t h (fun x hx => (h2 x hx).1), h1]
  have hb : ∀ y ∈ t.flatten, y.length = w := by
    intro y hy
    obtain ⟨x, hx, hyx⟩ := List.mem_flatten.mp hy
    exact ((h2 x hx).2 y hyx).1
  show t.flatten.flatten.length = (lvl * h) * w
  rw [flatten_length_uniform _ w hb, ha]

theorem flatten02_mem (lvl h w c : Nat)
    (t : List (List (List (List ℚ)))) (ht : Shape4 lvl h w c t) :
    ∀ z ∈ flatten02 t, z.length = c := by
  intro z hz
  obtain ⟨y, hy, hzy⟩ := List.mem_flatten.mp hz
  obtain ⟨x, hx, hyx⟩ := List.mem_flatten.mp hy
  exact ((ht.2 x hx).2 y hyx).2 z hzy

/-- C8: decoding a frame slice in `evaluate` preserves the leading
`(lvl, h, w)` shape: flattening the first three dimensions, applying a
decoder whose rows all have width `d`, and viewing back yields a tensor of
shape `(lvl, h, w, d)`. -/
theorem restored_feat_shape (dec : List ℚ → List ℚ) (d lvl h w : Nat)
    (t : List (List (List (List ℚ))))
    (ht : Shape4 lvl h w 3 t) (hdec : ∀ r, (dec r).length = d)
    (hh : 0 < h) (hw : 0 < w) :
    Shape4 lvl h w d (restored_feat dec h w t) := by
  have hrows : ((flatten02 t).map dec).length = (lvl * h) * w := by
    rw [List.length_map, flatten02_length lvl h w 3 t ht]
  have hrowsd : ∀ z ∈ (flatten02 t).map dec, z.length = d := by
    intro z hz
    obtain ⟨r, hr, rfl⟩ := List.mem_map.mp hz
    exact hdec r
  have hcw : (chunk w ((flatten02 t).map dec)).length = lvl * h :=
    chunk_length w (lvl * h) hw _ hrows
  have hcwlen : ∀ y ∈ chunk w ((flatten02 t).map dec), y.length = w :=
    chunk_mem_length w (lvl * h) hw _ hrows
  have hcwsub : ∀ y ∈ chunk w ((flatten02 t).map dec), ∀ z ∈ y,
      z ∈ (flatten02 t).map dec :=
    chunk_mem_subset w (lvl * h) hw _ hrows
  refine ⟨chunk_length h lvl hh _ (by rw [hcw]), ?_⟩
  intro x hx
  refine ⟨chunk_mem_length h lvl hh _ (by rw [hcw]) x hx, ?_⟩
  intro y hy
  have hymem : y ∈ chunk w ((flatten02 t).map dec) :=
    chunk_mem_subset h lvl hh _ (by rw [hcw]) x hx y hy
  exact ⟨hcwlen y hymem, fun z hz => hrowsd z (hcwsub y hymem z hz)⟩

/-- Witness for C8: a (1,2,2,3) input and a constant-width-2 decoder. -/
theorem restored_feat_shape_witness :
    Shape4 1 2 2 2
      (restored_feat (fun r => [0, 0]) 2 2
        [[[[1, 2, 3], [4, 5, 6]], [[7, 8, 9], [10, 11, 12]]]]) :=
  restored_feat_shape (fun r => [0, 0]) 2 1 2 2
    [[[[1, 2, 3], [4, 5, 6]], [[7, 8, 9], [10, 11, 12]]]]
    (by decide) (fun r => rfl) (by decide) (by decide)

theorem streamEffect_not_iou (cmap : List (List ℚ) → List (List ℚ))
    (gl : Option (List GaussianModel)) (gm : Bool)
    (pxyz vmik : List (List ℚ)) (k i : Nat) (t : ℚ) :
    (streamEffect cmap gl gm pxyz vmik k i t).isIouReport = false := by
  cases gl with
  | some l => rfl
  | none => cases gm <;> rfl

theorem activate_stream_not_iou (cmap : List (List ℚ) → List (List ℚ))
    (gaussiansList : Option (List GaussianModel)) (generateMask : Bool)
    (pointXyz : List (List ℚ)) (validMap : List (List (List (List ℚ))))
    (t : ℚ) :
    ∀ e ∈ activate_stream cmap gaussiansList generateMask pointXyz validMap t,
      e.isIouReport = false := by
  intro e he
  simp only [activate_stream, List.mem_flatten, List.mem_map] at he
  obtain ⟨l, ⟨k, hk, rfl⟩, hel⟩ := he
  simp only [List.mem_map] at hel
  obtain ⟨i, hi, rfl⟩ := hel
  exact streamEffect_not_iou _ _ _ _ _ _ _ _

/-- C3 (amended): `evaluate` reports no IoU at all.  Every artifact produced
by the evaluation loop comes out of `activate_stream`'s three live branches
(exclusion point cloud, binary mask image, full point cloud); the IoU
computation of the script is commented out, so the collected effects never
contain an IoU report. -/
theorem evaluate_reports_no_iou (cmap : List (List ℚ) → List (List ℚ))
    (gma : List (List (List (List ℚ))) → List (List (List (List ℚ))))
    (dec : List ℚ → List ℚ)
    (gaussiansList : Option (List GaussianModel)) (generateMask : Bool)
    (pointXyz : List (List ℚ))
    (feats : List (List (List (List (List ℚ)))))
    (maskThresh : ℚ) :
    iouReports (evaluate_effects cmap gma dec gaussiansList generateMask
      pointXyz feats maskThresh) = [] := by
  apply List.filter_eq_nil_iff.mpr
  intro e he
  simp only [evaluate_effects, List.mem_flatten, List.mem_map] at he
  obtain ⟨a, ⟨j, hj, rfl⟩, ha⟩ := he
  have h := activate_stream_not_iou _ _ _ _ _ _ e ha
  simp [h]

/-- C3 (counterexample): at a concrete one-frame, one-prompt, one-pixel
input, `evaluate` produces exactly one artifact — a binary mask image — and
reports no IoU for the (frame 0, prompt 0) pair, contradicting the claim
that an intersection-over-union score is computed and reported for every
frame and prompt. -/
theorem evaluate_iou_counterexample :
    (([[[[[(1 : ℚ)]]]]] : List (List (List (List (List ℚ))))).headD
      []).length = 1 ∧
    evaluate_effects (fun m => m) (fun r => r) (fun r => r) none true []
        [[[[[(1 : ℚ)]]]]] ((4 : ℚ) / 10) =
      [Effect.maskImage 0 0 (maskFloat (maskTensor [[(1 : ℚ)]]))] ∧
    iouReports (evaluate_effects (fun m => m) (fun r => r) (fun r => r) none
      true [] [[[[[(1 : ℚ)]]]]] ((4 : ℚ) / 10)) = [] :=
  ⟨rfl, rfl, rfl⟩

/-- The number of Gaussians whose relevance exceeds 0.65. -/
def aboveThreshold65 (rel : List ℚ) : Nat :=
  rel.countP (fun v => decide ((65 : ℚ) / 100 < v))

theorem relMask_count (rel : List ℚ) :
    (relMask rel).count true = aboveThreshold65 rel := by
  induction rel with
  | nil => rfl
  | cons r rs ih =>
    simp only [relMask, aboveThreshold65, List.map_cons, List.count_cons,
      List.countP_cons] at *
    by_cases h : (65 : ℚ) / 100 < r <;> simp [h, ih]

theorem relMask_length (rel : List ℚ) : (relMask rel).length = rel.length := by
  simp [relMask]

/-- C1: in 3D-exclusion mode, for every head `i` and prompt `k`,
`activate_stream` keeps exactly the Gaussians whose relevance
`valid_map[i][k]` exceeds 0.65: the saved point cloud is the `point_xyz`
rows at mask-true indices, every attribute tensor of the saved model is
filtered by the same mask, and all filtered tensors have first dimension
equal to the number of Gaussians above the threshold. -/
theorem exclude_branch_filters_by_relevance
    (cmap : List (List ℚ) → List (List ℚ)) (gl : List GaussianModel)
    (gm : Bool) (pxyz vmik : List (List ℚ)) (k i : Nat) (t : ℚ) (N : Nat)
    (g : GaussianModel)
    (hrows : ∀ row ∈ vmik, row.length = 1)
    (hvm : vmik.length = N)
    (hp : pxyz.length = N)
    (hgi : gl.getD i default = g)
    (h1 : g.features_dc.length = N) (h2 : g.features_rest.length = N)
    (h3 : g.language_feature.length = N) (h4 : g.opacity.length = N)
    (h5 : g.rotation.length = N) (h6 : g.scaling.length = N)
    (h7 : g.xyz.length = N) (h8 : g.max_radii2D.length = N) :
    streamEffect cmap (some gl) gm pxyz vmik k i t =
      Effect.excludePly k i (applyMask (relMask (squeezeCol vmik)) g)
        (maskFilter (relMask (squeezeCol vmik)) pxyz)
        (maskFilter (relMask (squeezeCol vmik)) (cmap vmik)) ∧
    maskFilter (relMask (squeezeCol vmik)) pxyz =
      (((squeezeCol vmik).zip pxyz).filter
        (fun q => decide ((65 : ℚ) / 100 < q.1))).map (fun q => q.2) ∧
    (applyMask (relMask (squeezeCol vmik)) g).xyz =
      (((squeezeCol vmik).zip g.xyz).filter
        (fun q => decide ((65 : ℚ) / 100 < q.1))).map (fun q => q.2) ∧
    (maskFilter (relMask (squeezeCol vmik)) pxyz).length =
      aboveThreshold65 (squeezeCol vmik) ∧
    (applyMask (relMask (squeezeCol vmik)) g).features_dc.length =
      aboveThreshold65 (squeezeCol vmik) ∧
    (applyMask (relMask (squeezeCol vmik)) g).features_rest.length =
      aboveThreshold65 (squeezeCol vmik) ∧
    (applyMask (relMask (squeezeCol vmik)) g).language_feature.length =
      aboveThreshold65 (squeezeCol vmik) ∧
    (applyMask (relMask (squeezeCol vmik)) g).opacity.length =
      aboveThreshold65 (squeezeCol vmik) ∧
    (applyMask (relMask (squeezeCol vmik)) g).rotation.length =
      aboveThreshold65 (squeezeCol vmik) ∧
    (applyMask (relMask (squeezeCol vmik)) g).scaling.length =
      aboveThreshold65 (squeezeCol vmik) ∧
    (applyMask (relMask (squeezeCol vmik)) g).xyz.length =
      aboveThreshold65 (squeezeCol vmik) ∧
    (applyMask (relMask (squeezeCol vmik)) g).max_radii2D.length =
      aboveThreshold65 (squeezeCol vmik) := by
  subst hgi
  have hrel : (squeezeCol vmik).length = N := by
    show vmik.flatten.length = N
    rw [flatten_length_uniform vmik 1 hrows, hvm, Nat.mul_one]
  have hmask : (relMask (squeezeCol vmik)).length = N := by
    rw [relMask_length, hrel]
  have hlen : ∀ (xs : List (List ℚ)), xs.length = N →
      (maskFilter (relMask (squeezeCol vmik)) xs).length =
        aboveThreshold65 (squeezeCol vmik) := by
    intro xs hxs
    rw [maskFilter_length _ _ (by rw [hmask, hxs]), relMask_count]
  have hlen1 : ∀ (xs : List ℚ), xs.length = N →
      (maskFilter (relMask (squeezeCol vmik)) xs).length =
        aboveThreshold65 (squeezeCol vmik) := by
    intro xs hxs
    rw [maskFilter_length _ _ (by rw [hmask, hxs]), relMask_count]
  refine ⟨rfl, maskFilter_map_pred _ _ _, maskFilter_map_pred _ _ _,
    hlen pxyz hp, hlen _ h1, hlen _ h2, hlen _ h3, hlen _ h4, hlen _ h5,
    hlen _ h6, hlen _ h7, hlen1 _ h8⟩

/-- The two-Gaussian example model used by the C1 witness. -/
def gExample : GaussianModel :=
  ⟨[[1], [2]], [[1], [2]], [[1], [2]], [[1], [2]], [[1], [2]], [[1], [2]],
    [[10], [20]], [1, 2]⟩

/-- The (2,1) relevance column used by the C1 witness: values 1 and 0. -/
def vmExample : List (List ℚ) := [[1], [0]]

/-- The two xyz positions used by the C1 witness. -/
def pxExample : List (List ℚ) := [[0], [3]]

/-- Witness for C1: two Gaussians with relevances 1 and 0; only the first
survives. -/
theorem exclude_branch_filters_by_relevance_witness :
    streamEffect id (some [gExample]) false pxExample vmExample 0 0
        ((5 : ℚ) / 10) =
      Effect.excludePly 0 0 (applyMask (relMask (squeezeCol vmExample)) gExample)
        (maskFilter (relMask (squeezeCol vmExample)) pxExample)
        (maskFilter (relMask (squeezeCol vmExample)) (id vmExample)) ∧
    maskFilter (relMask (squeezeCol vmExample)) pxExample =
      (((squeezeCol vmExample).zip pxExample).filter
        (fun q => decide ((65 : ℚ) / 100 < q.1))).map (fun q => q.2) ∧
    (applyMask (relMask (squeezeCol vmExample)) gExample).xyz =
      (((squeezeCol vmExample).zip gExample.xyz).filter
        (fun q => decide ((65 : ℚ) / 100 < q.1))).map (fun q => q.2) ∧
    (maskFilter (relMask (squeezeCol vmExample)) pxExample).length =
      aboveThreshold65 (squeezeCol vmExample) ∧
    (applyMask (relMask (squeezeCol vmExample)) gExample).features_dc.length =
      aboveThreshold65 (squeezeCol vmExample) ∧
    (applyMask (relMask (squeezeCol vmExample)) gExample).features_rest.length =
      aboveThreshold65 (squeezeCol vmExample) ∧
    (applyMask (relMask (squeezeCol vmExample)) gExample).language_feature.length =
      aboveThreshold65 (squeezeCol vmExample) ∧
    (applyMask (relMask (squeezeCol vmExample)) gExample).opacity.length =
      aboveThreshold65 (squeezeCol vmExample) ∧
    (applyMask (relMask (squeezeCol vmExample)) gExample).rotation.length =
      aboveThreshold65 (squeezeCol vmExample) ∧
    (applyMask (relMask (squeezeCol vmExample)) gExample).scaling.length =
      aboveThreshold65 (squeezeCol vmExample) ∧
    (applyMask (relMask (squeezeCol vmExample)) gExample).xyz.length =
      aboveThreshold65 (squeezeCol vmExample) ∧
    (applyMask (relMask (squeezeCol vmExample)) gExample).max_radii2D.length =
      aboveThreshold65 (squeezeCol vmExample) :=
  exclude_branch_filters_by_relevance id [gExample] false pxExample
    vmExample 0 0 ((5 : ℚ) / 10) 2 gExample (by decide) rfl rfl rfl rfl rfl
    rfl rfl rfl rfl rfl rfl

theorem labelHit_le_one (coords : List (Nat × Nat)) (boxes : List (List ℚ)) :
    labelHit coords boxes ≤ 1 := by
  induction boxes with
  | nil => exact Nat.zero_le 1
  | cons b rest ih =>
    rw [labelHit]
    by_cases h : coords.any (boxContains b) <;> simp [h, ih]

theorem lerf_acc_num_aux (anns : List (List (List ℚ) × List (Nat × Nat)))
    (acc : Nat) :
    anns.foldl (fun a p => a + labelHit p.2 p.1) acc ≤ acc + anns.length := by
  induction anns generalizing acc with
  | nil => simp
  | cons p rest ih =>
    calc (p :: rest).foldl (fun a q => a + labelHit q.2 q.1) acc
        = rest.foldl (fun a q => a + labelHit q.2 q.1)
            (acc + labelHit p.2 p.1) := rfl
      _ ≤ (acc + labelHit p.2 p.1) + rest.length := ih _
      _ ≤ acc + (p :: rest).length := by
          have := labelHit_le_one p.2 p.1
          simp only [List.length_cons]
          omega

/-- C5: the bounding-box point-containment scoring increments `acc_num` at
most once per label: the per-label increment is 1 exactly when some
candidate coordinate lies inside one of the label's min/max-normalized
boxes, containment is invariant under swapping the box corners, and the
total is at most the number of labels. -/
theorem lerf_box_scoring (coords : List (Nat × Nat))
    (boxes : List (List ℚ))
    (anns : List (List (List ℚ) × List (Nat × Nat)))
    (x1 y1 x2 y2 : ℚ) (c : Nat × Nat) :
    labelHit coords boxes =
      (if boxes.any (fun b => coords.any (boxContains b)) then 1 else 0) ∧
    lerf_acc_num anns ≤ anns.length ∧
    boxContains [x1, y1, x2, y2] c = boxContains [x2, y2, x1, y1] c := by
  refine ⟨?_, ?_, ?_⟩
  · induction boxes with
    | nil => rfl
    | cons b rest ih =>
      rw [labelHit]
      by_cases h : coords.any (boxContains b) = true
      · simp [h]
      · simp only [Bool.not_eq_true] at h
        rw [if_neg (by simp [h] : ¬coords.any (boxContains b) = true), ih,
          List.any_cons, h, Bool.false_or]
  · simpa using lerf_acc_num_aux anns 0
  · simp [boxContains, min_comm, max_comm]

theorem listMax_mem : ∀ (l : List ℚ), l ≠ [] → listMax l ∈ l := by
  intro l
  induction l with
  | nil => intro h; exact absurd rfl h
  | cons v rest ih =>
    intro _
    cases rest with
    | nil => exact List.mem_singleton.mpr rfl
    | cons w rs =>
      rw [listMax]
      rcases max_choice v (listMax (w :: rs)) with h | h
      · rw [h]; exact List.mem_cons_self _ _
      · rw [h]; exact List.mem_cons_of_mem v (ih (List.cons_ne_nil w rs))

theorem le_listMax : ∀ (l : List ℚ), ∀ x ∈ l, x ≤ listMax l := by
  intro l
  induction l with
  | nil => intro x hx; exact absurd hx (List.not_mem_nil x)
  | cons v rest ih =>
    intro x hx
    cases rest with
    | nil =>
      rw [List.mem_singleton.mp hx]
      exact le_refl _
    | cons w rs =>
      rw [listMax]
      rcases List.mem_cons.mp hx with h | h
      · rw [h]; exact le_max_left _ _
      · exact le_trans (ih x h) (le_max_right _ _)

theorem argmaxIdx_lt_length : ∀ (l : List ℚ), l ≠ [] → argmaxIdx l < l.length := by
  intro l
  induction l with
  | nil => intro h; exact absurd rfl h
  | cons v rest ih =>
    intro _
    cases rest with
    | nil => exact Nat.zero_lt_one
    | cons w rs =>
      rw [argmaxIdx]
      by_cases h : v < listMax (w :: rs)
      · rw [if_pos h]
        exact Nat.succ_lt_succ (ih (List.cons_ne_nil w rs))
      · rw [if_neg h]
        exact Nat.zero_lt_succ _

theorem getD_argmaxIdx : ∀ (l : List ℚ), l ≠ [] →
    l.getD (argmaxIdx l) 0 = listMax l := by
  intro l
  induction l with
  | nil => intro h; exact absurd rfl h
  | cons v rest ih =>
    intro _
    cases rest with
    | nil => rfl
    | cons w rs =>
      rw [argmaxIdx, listMax]
      by_cases h : v < listMax (w :: rs)
      · rw [if_pos h]
        show (w :: rs).getD (argmaxIdx (w :: rs)) 0 = _
        rw [ih (List.cons_ne_nil w rs), max_eq_right (le_of_lt h)]
      · rw [if_neg h]
        show v = max v (listMax (w :: rs))
        rw [max_eq_left (not_lt.mp h)]

theorem argmaxIdx_first : ∀ (l : List ℚ), ∀ j < argmaxIdx l,
    l.getD j 0 < l.getD (argmaxIdx l) 0 := by
  intro l
  induction l with
  | nil => intro j hj; simp [argmaxIdx] at hj
  | cons v rest ih =>
    intro j hj
    cases rest with
    | nil => simp [argmaxIdx] at hj
    | cons w rs =>
      rw [argmaxIdx] at hj ⊢
      by_cases h : v < listMax (w :: rs)
      · rw [if_pos h] at hj ⊢
        cases j with
        | zero =>
          show v < (w :: rs).getD (argmaxIdx (w :: rs)) 0
          rw [getD_argmaxIdx (w :: rs) (List.cons_ne_nil w rs)]
          exact h
        | succ j' =>
          exact ih j' (Nat.lt_of_succ_lt_succ hj)
      · rw [if_neg h] at hj
        exact absurd hj (Nat.not_lt_zero j)

theorem mem_colsEq (s : ℚ) : ∀ (row : List ℚ) (c : Nat),
    c ∈ colsEq s row ↔ row.get? c = some s := by
  intro row
  induction row with
  | nil => intro c; simp [colsEq]
  | cons v rest ih =>
    intro c
    rw [colsEq]
    cases c with
    | zero =>
      simp only [List.mem_append, List.mem_map]
      constructor
      · rintro (h | ⟨a, _, ha⟩)
        · by_cases hv : v = s
          · simp [hv]
          · simp [hv] at h
        · omega
      · intro h
        left
        have hv : v = s := by simpa using h
        simp [hv]
    | succ c' =>
      simp only [List.mem_append, List.mem_map]
      constructor
      · rintro (h | ⟨a, ha, haa⟩)
        · by_cases hv : v = s <;> simp [hv] at h
        · have hac : a = c' := by omega
          rw [hac] at ha
          simpa using (ih c').mp ha
      · intro h
        right
        exact ⟨c', (ih c').mpr (by simpa using h), rfl⟩

theorem mem_maxCoords (s : ℚ) : ∀ (m : List (List ℚ)) (x y : Nat),
    (x, y) ∈ maxCoords m s ↔
      ∃ row, m.get? y = some row ∧ row.get? x = some s := by
  intro m
  induction m with
  | nil => intro x y; simp [maxCoords]
  | cons row rest ih =>
    intro x y
    rw [maxCoords]
    cases y with
    | zero =>
      simp only [List.mem_append, List.mem_map]
      constructor
      · rintro (⟨c, hc, hcc⟩ | ⟨p, _, hp⟩)
        · have hcx : c = x := congrArg Prod.fst hcc
          rw [hcx] at hc
          exact ⟨row, rfl, (mem_colsEq s row x).mp hc⟩
        · exact absurd (congrArg Prod.snd hp) (by simp)
      · rintro ⟨row', hrow', hx⟩
        left
        have hr : row = row' := by simpa using hrow'
        exact ⟨x, (mem_colsEq s row x).mpr (hr.symm ▸ hx), rfl⟩
    | succ y' =>
      simp only [List.mem_append, List.mem_map]
      constructor
      · rintro (⟨c, _, hcc⟩ | ⟨⟨px, py⟩, hp, hpp⟩)
        · exact absurd (congrArg Prod.snd hcc) (by simp)
        · rw [Prod.mk.injEq] at hpp
          obtain ⟨h1, h2⟩ := hpp
          have h1' : px = x := h1
          have h2' : py = y' := by omega
          have := (ih px py).mp hp
          rw [h1', h2'] at this
          simpa using this
      · rintro ⟨row', hrow', hx⟩
        right
        exact ⟨(x, y'), (ih x y').mpr ⟨row', by simpa using hrow', hx⟩, rfl⟩

/-- The claim's reading of lines 214-215: a 30x30 kernel, every weight
1/900, weights summing to one. -/
def KernelIsUniformAveraging : Prop :=
  lerfKernel.length = 30 ∧
  (∀ row ∈ lerfKernel, row.length = 30 ∧ ∀ v ∈ row, v = (1 : ℚ) / 900) ∧
  (lerfKernel.map List.sum).sum = 1

/-- `s` is the maximum value of the 2D map `m`. -/
def IsMaxOf (s : ℚ) (m : List (List ℚ)) : Prop :=
  s ∈ m.flatten ∧ ∀ v ∈ m.flatten, v ≤ s

/-- Every per-head score is the maximum of that head's smoothed map. -/
def ScoresAreMaxima (smoothed : List (List (List ℚ)))
    (scores : List ℚ) : Prop :=
  ∀ idx mm, smoothed.get? idx = some mm → mm.flatten ≠ [] →
    IsMaxOf (scores.getD idx 0) mm

/-- `j` is the arg-max of `l`, ties resolved to the lowest index. -/
def FirstArgmax (l : List ℚ) (j : Nat) : Prop :=
  j < l.length ∧ (∀ idx, idx < l.length → l.getD idx 0 ≤ l.getD j 0) ∧
  ∀ idx, idx < j → l.getD idx 0 < l.getD j 0

/-- `coords` lists exactly the `(x, y)` pixels of `m` holding value `s`. -/
def CoordsAttainMax (coords : List (Nat × Nat)) (m : List (List ℚ))
    (s : ℚ) : Prop :=
  ∀ x y : Nat, (x, y) ∈ coords ↔
    ∃ row, m.get? y = some row ∧ row.get? x = some s

/-- C4: in `lerf_localization`, the smoothing kernel is the 30x30 uniform
averaging filter (all weights 1/900, summing to 1); each head's score is the
maximum of its smoothed relevance map; the selected head is the arg-max of
the scores with ties resolved to the lowest index; and the candidate
coordinates are exactly the pixels of the selected head's smoothed map that
attain its maximum, in `(x, y)` order. -/
theorem lerf_localization_selection
    (filt : List (List ℚ) → List (List ℚ) → List (List ℚ))
    (maps : List (List (List ℚ))) (hne : maps ≠ []) :
    KernelIsUniformAveraging ∧
    ScoresAreMaxima (lerfSmoothed filt maps) (lerfScores filt maps) ∧
    FirstArgmax (lerfScores filt maps) (lerfSelect filt maps) ∧
    CoordsAttainMax (lerfCoords filt maps)
      ((lerfSmoothed filt maps).getD (lerfSelect filt maps) [])
      ((lerfScores filt maps).getD (lerfSelect filt maps) 0) := by
  have hsne : lerfScores filt maps ≠ [] := by
    simp [lerfScores, lerfSmoothed]
    exact hne
  refine ⟨⟨rfl, ?_, ?_⟩, ?_, ⟨?_, ?_, ?_⟩, ?_⟩
  · intro row hrow
    obtain ⟨_, rfl⟩ := (List.mem_replicate.mp hrow)
    exact ⟨List.length_replicate 30 _,
      fun v hv => (List.mem_replicate.mp hv).2⟩
  · simp only [lerfKernel, List.map_replicate, List.sum_replicate]
    norm_num
  · intro idx mm hidx hmmne
    have hsc : (lerfScores filt maps).get? idx = some (matMax mm) := by
      rw [lerfScores, List.get?_map, hidx, Option.map_some']
    have hgd : (lerfScores filt maps).getD idx 0 = matMax mm := by
      rw [List.getD_eq_getD_get?, hsc, Option.getD_some]
    rw [hgd]
    exact ⟨listMax_mem _ hmmne, le_listMax _⟩
  · exact argmaxIdx_lt_length _ hsne
  · intro idx hidx
    show (lerfScores filt maps).getD idx 0 ≤
      (lerfScores filt maps).getD (argmaxIdx (lerfScores filt maps)) 0
    rw [getD_argmaxIdx _ hsne, List.getD_eq_get _ _ hidx]
    exact le_listMax _ _ (List.get_mem _ _ _)
  · exact fun idx hidx => argmaxIdx_first _ idx hidx
  · intro x y
    exact mem_maxCoords _ _ x y

/-- Witness for C4: a single head with a single-pixel map and the identity
in place of `cv2.filter2D`. -/
theorem lerf_localization_selection_witness :
    KernelIsUniformAveraging ∧
    ScoresAreMaxima (lerfSmoothed (fun _ m => m) [[[(1 : ℚ)]]])
      (lerfScores (fun _ m => m) [[[(1 : ℚ)]]]) ∧
    FirstArgmax (lerfScores (fun _ m => m) [[[(1 : ℚ)]]])
      (lerfSelect (fun _ m => m) [[[(1 : ℚ)]]]) ∧
    CoordsAttainMax (lerfCoords (fun _ m => m) [[[(1 : ℚ)]]])
      ((lerfSmoothed (fun _ m => m) [[[(1 : ℚ)]]]).getD
        (lerfSelect (fun _ m => m) [[[(1 : ℚ)]]]) [])
      ((lerfScores (fun _ m => m) [[[(1 : ℚ)]]]).getD
        (lerfSelect (fun _ m => m) [[[(1 : ℚ)]]]) 0) :=
  lerf_localization_selection (fun _ m => m) [[[(1 : ℚ)]]] (by simp)

theorem lookupA_upsertA_self (k : String) (v : α) :
    ∀ l : List (String × α), lookupA k (upsertA k v l) = some v := by
  intro l
  induction l with
  | nil => simp [upsertA, lookupA]
  | cons p rest ih =>
    obtain ⟨k', v'⟩ := p
    rw [upsertA]
    by_cases h : k' = k
    · rw [if_pos h, lookupA, if_pos rfl]
    · rw [if_neg h, lookupA, if_neg h, ih]

theorem lookupA_upsertA_ne (k k' : String) (hne : k ≠ k') (v : α) :
    ∀ l : List (String × α), lookupA k' (upsertA k v l) = lookupA k' l := by
  intro l
  induction l with
  | nil => simp [upsertA, lookupA, hne]
  | cons p rest ih =>
    obtain ⟨k'', v''⟩ := p
    rw [upsertA]
    by_cases h : k'' = k
    · rw [if_pos h, lookupA, if_neg hne, lookupA, h, if_neg hne]
    · rw [if_neg h, lookupA, lookupA, ih]

theorem mem_keys_upsertA_self (k : String) (v : α) :
    ∀ l : List (String × α), k ∈ (upsertA k v l).map Prod.fst := by
  intro l
  induction l with
  | nil => simp [upsertA]
  | cons p rest ih =>
    obtain ⟨k', v'⟩ := p
    rw [upsertA]
    by_cases h : k' = k
    · rw [if_pos h]; simp
    · rw [if_neg h]
      simpa using Or.inr (by simpa using ih)

theorem mem_keys_upsertA_of_mem (k : String) (v : α) (k'' : String) :
    ∀ l : List (String × α), k'' ∈ l.map Prod.fst →
      k'' ∈ (upsertA k v l).map Prod.fst := by
  intro l
  induction l with
  | nil => intro h; simp at h
  | cons p rest ih =>
    obtain ⟨k', v'⟩ := p
    intro h
    rw [upsertA]
    rcases (by simpa using h : k'' = k' ∨ k'' ∈ rest.map Prod.fst) with h' | h'
    · by_cases hk : k' = k
      · rw [if_pos hk]; simp [h', hk]
      · rw [if_neg hk]; simp [h']
    · by_cases hk : k' = k
      · rw [if_pos hk]
        simpa using Or.inr (by simpa using h')
      · rw [if_neg hk]
        simpa using Or.inr (by simpa using ih h')

theorem mem_keys_upsertA_cases (k : String) (v : α) (k'' : String) :
    ∀ l : List (String × α), k'' ∈ (upsertA k v l).map Prod.fst →
      k'' = k ∨ k'' ∈ l.map Prod.fst := by
  intro l
  induction l with
  | nil =>
    intro h
    simp [upsertA] at h
    exact Or.inl h
  | cons p rest ih =>
    obtain ⟨k', v'⟩ := p
    rw [upsertA]
    by_cases hk : k' = k
    · rw [if_pos hk]
      intro h
      rcases (by simpa using h : k'' = k ∨ k'' ∈ rest.map Prod.fst) with h' | h'
      · exact Or.inl h'
      · exact Or.inr (by simpa using Or.inr h')
    · rw [if_neg hk]
      intro h
      rcases (by simpa using h :
          k'' = k' ∨ k'' ∈ (upsertA k v rest).map Prod.fst) with h' | h'
      · exact Or.inr (by simpa using Or.inl h')
      · rcases ih h' with h'' | h''
        · exact Or.inl h''
        · exact Or.inr (by simpa using Or.inr h'')

theorem lookupA_addObject (p2m : Nat → Nat → List (ℚ × ℚ) → Mask)
    (hgt wid : Nat) (ann : List (String × LabelAnn)) (o : GtObject)
    (label : String) :
    lookupA label (addObject p2m hgt wid ann o) =
      if o.category = label then
        match lookupA label ann with
        | some la => some ⟨la.bboxes ++ [o.bbox],
            stack_mask la.mask (p2m hgt wid o.segmentation)⟩
        | none => some ⟨[o.bbox], p2m hgt wid o.segmentation⟩
      else lookupA label ann := by
  by_cases hc : o.category = label
  · rw [if_pos hc]
    subst hc
    cases h : lookupA o.category ann with
    | some la => rw [addObject, h, lookupA_upsertA_self]
    | none => rw [addObject, h, lookupA_upsertA_self]
  · rw [if_neg hc]
    cases h : lookupA o.category ann with
    | some la => rw [addObject, h, lookupA_upsertA_ne _ _ hc]
    | none => rw [addObject, h, lookupA_upsertA_ne _ _ hc]

/-- How the bboxes and mask of one label accumulate over the occurrences of
that label in a frame's `objects` (the claim's reading of lines 73-83). -/
def LabelAccumulates (p2m : Nat → Nat → List (ℚ × ℚ) → Mask)
    (hgt wid : Nat) (objects : List GtObject) : Prop :=
  ∀ label,
    lookupA label (build_img_ann p2m hgt wid objects) =
      match objects.filter (fun o => o.category == label) with
      | [] => none
      | o :: os => some ⟨(o :: os).map GtObject.bbox,
          os.foldl (fun m x => stack_mask m (p2m hgt wid x.segmentation))
            (p2m hgt wid o.segmentation)⟩

theorem build_img_ann_accumulates (p2m : Nat → Nat → List (ℚ × ℚ) → Mask)
    (hgt wid : Nat) (objects : List GtObject) :
    LabelAccumulates p2m hgt wid objects := by
  intro label
  induction objects using List.reverseRecOn with
  | nil => rfl
  | append_singleton objs o ih =>
    rw [build_img_ann, List.foldl_append, List.foldl_cons, List.foldl_nil]
    rw [show objs.foldl (addObject p2m hgt wid) [] =
      build_img_ann p2m hgt wid objs from rfl]
    rw [lookupA_addObject, List.filter_append]
    by_cases hc : o.category = label
    · rw [if_pos hc, ih]
      have hfo : [o].filter (fun x => x.category == label) = [o] := by
        simp [List.filter_cons, hc]
      rw [hfo]
      cases hl : objs.filter (fun x => x.category == label) with
      | nil => simp
      | cons o' os' => simp [List.foldl_append]
    · rw [if_neg hc, ih]
      have hfo : [o].filter (fun x => x.category == label) = [] := by
        simp [List.filter_cons, hc]
      rw [hfo, List.append_nil]

/-- Every `frame_*.json` file's `name` field parses to a frame number. -/
def AllParse (frames : List FrameData) : Prop :=
  ∀ f ∈ frames, (parseFrameNum f.info.name).isSome = true

/-- The keys of the returned `gt_ann` dict are exactly the strings of the
parsed frame numbers minus one: every file contributes its key, and every
key comes from some file. -/
def KeysMatchFrames (frames : List FrameData)
    (res : List (String × List (String × LabelAnn))) : Prop :=
  (∀ f ∈ frames, ∀ n, parseFrameNum f.info.name = some n →
    frameKey n ∈ res.map Prod.fst) ∧
  (∀ key ∈ res.map Prod.fst, ∃ f ∈ frames, ∃ n,
    parseFrameNum f.info.name = some n ∧ frameKey n = key)

/-- The returned `(h, w)` pair is the one of the last processed file. -/
def LastHW (frames : List FrameData) (hw : Nat × Nat) : Prop :=
  ∀ f, frames.getLast? = some f → hw = (f.info.height, f.info.width)

theorem evalGtLoop_spec (p2m : Nat → Nat → List (ℚ × ℚ) → Mask) :
    ∀ (frames : List FrameData)
      (acc : List (String × List (String × LabelAnn))) (hw : Nat × Nat),
    AllParse frames →
    ∃ res, evalGtLoop p2m frames acc (some hw) = some res ∧
      (∀ k ∈ acc.map Prod.fst, k ∈ res.1.map Prod.fst) ∧
      (∀ f ∈ frames, ∀ n, parseFrameNum f.info.name = some n →
        frameKey n ∈ res.1.map Prod.fst) ∧
      (∀ k ∈ res.1.map Prod.fst, k ∈ acc.map Prod.fst ∨
        ∃ f ∈ frames, ∃ n, parseFrameNum f.info.name = some n ∧
          frameKey n = k) ∧
      (frames = [] → res.2 = hw) ∧
      (∀ f, frames.getLast? = some f →
        res.2 = (f.info.height, f.info.width)) := by
  intro frames
  induction frames with
  | nil =>
    intro acc hw _
    refine ⟨(acc, hw), rfl, fun k hk => hk, ?_, ?_, fun _ => rfl, ?_⟩
    · intro f hf
      exact absurd hf (List.not_mem_nil f)
    · intro k hk
      exact Or.inl hk
    · intro f hf
      simp at hf
  | cons f rest ih =>
    intro acc hw hp
    have hpf : (parseFrameNum f.info.name).isSome = true :=
      hp f (List.mem_cons_self f rest)
    obtain ⟨n, hn⟩ := Option.isSome_iff_exists.mp hpf
    have hprest : AllParse rest :=
      fun g hg => hp g (List.mem_cons_of_mem f hg)
    obtain ⟨res, hres, hkeep, hfkeys, hrev, hnilhw, hlast⟩ :=
      ih (upsertA (frameKey n)
        (build_img_ann p2m f.info.height f.info.width f.objects) acc)
        (f.info.height, f.info.width) hprest
    refine ⟨res, ?_, ?_, ?_, ?_, ?_, ?_⟩
    · rw [evalGtLoop, hn]
      exact hres
    · intro k hk
      exact hkeep k (mem_keys_upsertA_of_mem _ _ k acc hk)
    · intro g hg n' hn'
      rcases List.mem_cons.mp hg with hgf | hg'
      · subst hgf
        have hnn : n' = n := by
          rw [hn] at hn'
          exact (Option.some.inj hn').symm
        subst hnn
        exact hkeep _ (mem_keys_upsertA_self _ _ acc)
      · exact hfkeys g hg' n' hn'
    · intro k hk
      rcases hrev k hk with h1 | ⟨g, hg, n', hn', hkey⟩
      · rcases mem_keys_upsertA_cases _ _ k acc h1 with h2 | h2
        · exact Or.inr ⟨f, List.mem_cons_self f rest, n, hn, h2.symm⟩
        · exact Or.inl h2
      · exact Or.inr ⟨g, List.mem_cons_of_mem f hg, n', hn', hkey⟩
    · intro h
      exact absurd h (List.cons_ne_nil f rest)
    · intro g hg
      cases rest with
      | nil =>
        have hgf : f = g := by simpa using hg
        rw [← hgf]
        exact hnilhw rfl
      | cons r rs =>
        rw [List.getLast?_cons_cons] at hg
        exact hlast g hg

/-- C10: `eval_gt_lerfdata` fails (unbound `(h, w)`) on a folder with no
`frame_*.json` file; on a nonempty folder it returns a dict whose keys are
the decimal strings of the parsed frame numbers minus one (one key
contributed per file), together with the `(h, w)` of the last file, and
within one frame a repeated label accumulates one bbox row per occurrence
while its mask is the stacked union of the occurrence masks. -/
theorem eval_gt_lerfdata_spec (p2m : Nat → Nat → List (ℚ × ℚ) → Mask)
    (frames : List FrameData) (hgt wid : Nat) (objects : List GtObject)
    (hne : frames ≠ []) (hp : AllParse frames) :
    eval_gt_lerfdata p2m [] = none ∧
    (eval_gt_lerfdata p2m frames).isSome = true ∧
    KeysMatchFrames frames
      ((eval_gt_lerfdata p2m frames).getD ([], (0, 0))).1 ∧
    LastHW frames ((eval_gt_lerfdata p2m frames).getD ([], (0, 0))).2 ∧
    LabelAccumulates p2m hgt wid objects := by
  cases frames with
  | nil => exact absurd rfl hne
  | cons f rest =>
    have hpf : (parseFrameNum f.info.name).isSome = true :=
      hp f (List.mem_cons_self f rest)
    obtain ⟨n, hn⟩ := Option.isSome_iff_exists.mp hpf
    have hprest : AllParse rest :=
      fun g hg => hp g (List.mem_cons_of_mem f hg)
    obtain ⟨res, hres, hkeep, hfkeys, hrev, hnilhw, hlast⟩ :=
      evalGtLoop_spec p2m rest
        (upsertA (frameKey n)
          (build_img_ann p2m f.info.height f.info.width f.objects) [])
        (f.info.height, f.info.width) hprest
    have heval : eval_gt_lerfdata p2m (f :: rest) = some res := by
      rw [eval_gt_lerfdata, evalGtLoop, hn]
      exact hres
    refine ⟨rfl, by rw [heval]; rfl, ?_, ?_,
      build_img_ann_accumulates p2m hgt wid objects⟩
    · rw [heval]
      constructor
      · intro g hg n' hn'
        rcases List.mem_cons.mp hg with hgf | hg'
        · subst hgf
          have hnn : n' = n := by
            rw [hn] at hn'
            exact (Option.some.inj hn').symm
          subst hnn
          exact hkeep _ (mem_keys_upsertA_self _ _ [])
        · exact hfkeys g hg' n' hn'
      · intro k hk
        rcases hrev k hk with h1 | ⟨g, hg, n', hn', hkey⟩
        · rcases mem_keys_upsertA_cases _ _ k [] h1 with h2 | h2
          · exact ⟨f, List.mem_cons_self f rest, n, hn, h2.symm⟩
          · simp at h2
        · exact ⟨g, List.mem_cons_of_mem f hg, n', hn', hkey⟩
    · rw [heval]
      intro g hg
      cases rest with
      | nil =>
        have hgf : f = g := by simpa using hg
        rw [← hgf]
        exact hnilhw rfl
      | cons r rs =>
        rw [List.getLast?_cons_cons] at hg
        exact hlast g hg

/-- The polygon rasterizer used by the C10 witness. -/
def p2mExample : Nat → Nat → List (ℚ × ℚ) → Mask := fun _ _ _ => [[true]]

/-- The one-frame, one-object annotation folder of the C10 witness. -/
def frameExample : FrameData :=
  ⟨⟨2, 3, "frame_1.jpg"⟩, [⟨"apple", [0, 0, 1, 1], []⟩]⟩

/-- Witness for C10 at a single parsable frame file. -/
theorem eval_gt_lerfdata_spec_witness :
    eval_gt_lerfdata p2mExample [] = none ∧
    (eval_gt_lerfdata p2mExample [frameExample]).isSome = true ∧
    KeysMatchFrames [frameExample]
      ((eval_gt_lerfdata p2mExample [frameExample]).getD ([], (0, 0))).1 ∧
    LastHW [frameExample]
      ((eval_gt_lerfdata p2mExample [frameExample]).getD ([], (0, 0))).2 ∧
    LabelAccumulates p2mExample 2 3 [⟨"apple", [0, 0, 1, 1], []⟩] :=
  eval_gt_lerfdata_spec p2mExample [frameExample] 2 3
    [⟨"apple", [0, 0, 1, 1], []⟩] (by simp)
    (by intro f hf; fin_cases hf; rfl)

end LangSplat
